import Mathlib

set_option maxRecDepth 4000

/-!
Verification development for the `nautilus_trader_rig` repository
(`src/main.rs`, `src/utils.rs`): an incremental snippet-collection and
deduplicated-embedding pipeline.  The Rust code is shallowly embedded:
pure computations become Lean functions; filesystem / git / network
collaborators (the walked file tree, the regex engine, the embedding
service, the vector store write, the completion service) are passed in as
explicit data or success oracles, exactly at the boundaries where the
Rust code calls into external crates.
-/

namespace NautilusRig

/-- Structure `CodeChunk` (main.rs lines 23-29 and utils.rs lines 9-15): one snippet
of code to embed, with a stable identity, text payload, language label and
origin path. -/
structure CodeChunk where
  id : String
  content : String
  language : String
  file_path : String
deriving Repr, DecidableEq

/-! ## The utils.rs chunker -/

/-- Constant `MAX_LINES_PER_CHUNK` (utils.rs line 63): cap on the number of lines
per chunk. -/
def MAX_LINES_PER_CHUNK : Nat := 300

/-- Split a character list at every occurrence of `c`; the result always
has one more segment than there are occurrences of `c`. -/
def splitOnChar (c : Char) : List Char → List (List Char)
  | [] => [[]]
  | a :: t =>
    if a = c then
      [] :: splitOnChar c t
    else
      match splitOnChar c t with
      | [] => [[a]]
      | h :: r => (a :: h) :: r

/-- Rust's `str::ends_with` on strings. -/
def strEndsWith (s suffix : String) : Bool :=
  List.isSuffixOf suffix.data s.data

/-- Rust's `str::to_lowercase` for the ASCII paths this code walks. -/
def strToLower (s : String) : String :=
  String.mk (s.data.map Char.toLower)

/-- Model of Rust's `str::lines()` (utils.rs line 64, main.rs line 164)
for LF-terminated text: split on `'\n'`, with a final trailing newline not
producing an extra empty line.  In particular `rustLines "" = []`. -/
def rustLines (s : String) : List String :=
  let parts := (splitOnChar '\n' s.data).map String.mk
  if parts.getLast? = some "" then parts.dropLast else parts

/-- Model of Rust's `slice::join("\n")` (utils.rs line 71). -/
def joinLines : List String → String
  | [] => ""
  | [a] => a
  | a :: b :: rest => a ++ "\n" ++ joinLines (b :: rest)

/-- The chunk identifier format (utils.rs lines 73-76):
`format!("FS::{}::chunk_{}_{}", file_path, chunk_start, chunk_end)`. -/
def chunkId (file_path : String) (chunk_start chunk_end : Nat) : String :=
  "FS::" ++ file_path ++ "::chunk_" ++ toString chunk_start ++ "_" ++ toString chunk_end

/-- The chunking `while` loop of `collect_snippets_from_dir`
(utils.rs lines 66-86): starting from `chunk_start`, repeatedly take up to
`MAX_LINES_PER_CHUNK` lines, push a `CodeChunk` whose content is the slice
joined with `"\n"` and whose id records `(file_path, chunk_start,
chunk_end)`, and continue from `chunk_end`. -/
def chunkLoop (file_path lang_label : String) (lines : List String) (chunk_start : Nat) :
    List CodeChunk :=
  if h : chunk_start < lines.length then
    { id := chunkId file_path chunk_start (min (chunk_start + MAX_LINES_PER_CHUNK) lines.length),
      content := joinLines ((lines.drop chunk_start).take
        (min (chunk_start + MAX_LINES_PER_CHUNK) lines.length - chunk_start)),
      language := lang_label,
      file_path := file_path }
      :: chunkLoop file_path lang_label lines (min (chunk_start + MAX_LINES_PER_CHUNK) lines.length)
  else []
termination_by lines.length - chunk_start
decreasing_by
  unfold MAX_LINES_PER_CHUNK
  omega

/-- Chunking one file, as `collect_snippets_from_dir` does per file
(utils.rs lines 62-86): split the file text into lines, then run the
chunking loop from line 0. -/
def chunkFile (file_path lang_label : String) (file_str : String) : List CodeChunk :=
  chunkLoop file_path lang_label (rustLines file_str) 0

/-- The sequence of `(chunk_start, chunk_end)` line ranges produced by the
chunking loop of utils.rs, used to state properties of `chunkLoop`. -/
def chunkRanges (total_lines chunk_start : Nat) : List (Nat × Nat) :=
  if h : chunk_start < total_lines then
    (chunk_start, min (chunk_start + MAX_LINES_PER_CHUNK) total_lines)
      :: chunkRanges total_lines (min (chunk_start + MAX_LINES_PER_CHUNK) total_lines)
  else []
termination_by total_lines - chunk_start
decreasing_by
  unfold MAX_LINES_PER_CHUNK
  omega

/-- The chunk a range `(chunk_start, chunk_end)` of a file's lines gives
rise to in utils.rs: id from the path and the line range, content the
joined slice of lines. -/
def sliceChunk (file_path lang_label : String) (lines : List String) (r : Nat × Nat) :
    CodeChunk :=
  { id := chunkId file_path r.1 r.2,
    content := joinLines ((lines.drop r.1).take (r.2 - r.1)),
    language := lang_label,
    file_path := file_path }

theorem chunkRanges_pos {n s : Nat} (h : s < n) :
    chunkRanges n s =
      (s, min (s + MAX_LINES_PER_CHUNK) n) :: chunkRanges n (min (s + MAX_LINES_PER_CHUNK) n) := by
  rw [chunkRanges]
  simp [h]

theorem chunkRanges_neg {n s : Nat} (h : ¬ s < n) : chunkRanges n s = [] := by
  rw [chunkRanges]
  simp [h]

theorem chunkLoop_pos {p l : String} {lines : List String} {s : Nat} (h : s < lines.length) :
    chunkLoop p l lines s =
      sliceChunk p l lines (s, min (s + MAX_LINES_PER_CHUNK) lines.length)
        :: chunkLoop p l lines (min (s + MAX_LINES_PER_CHUNK) lines.length) := by
  rw [chunkLoop]
  simp [h, sliceChunk]

theorem chunkLoop_neg {p l : String} {lines : List String} {s : Nat} (h : ¬ s < lines.length) :
    chunkLoop p l lines s = [] := by
  rw [chunkLoop]
  simp [h]

/-- The chunking loop is exactly the map of `sliceChunk` over the range
sequence: every chunk's id and content are derived from the file path and
the chunk's start/end line positions. -/
theorem chunkLoop_eq_map (p l : String) (lines : List String) (s : Nat) :
    chunkLoop p l lines s = (chunkRanges lines.length s).map (sliceChunk p l lines) := by
  by_cases h : s < lines.length
  · rw [chunkLoop_pos h, chunkRanges_pos h, List.map_cons,
      chunkLoop_eq_map p l lines (min (s + MAX_LINES_PER_CHUNK) lines.length)]
  · rw [chunkLoop_neg h, chunkRanges_neg h, List.map_nil]
termination_by lines.length - s
decreasing_by
  unfold MAX_LINES_PER_CHUNK
  omega

/-- Every range the chunker produces lies after the loop start, is
nonempty, stays within the file, and spans at most
`MAX_LINES_PER_CHUNK` lines. -/
theorem chunkRanges_bounds (n s : Nat) :
    ∀ r ∈ chunkRanges n s,
      s ≤ r.1 ∧ r.1 < r.2 ∧ r.2 ≤ n ∧ r.2 - r.1 ≤ MAX_LINES_PER_CHUNK := by
  by_cases h : s < n
  · rw [chunkRanges_pos h]
    intro r hr
    rcases List.mem_cons.mp hr with hr | hr
    · subst hr
      refine ⟨Nat.le_refl s, ?_, Nat.min_le_right _ _, ?_⟩
      · unfold MAX_LINES_PER_CHUNK
        omega
      · unfold MAX_LINES_PER_CHUNK
        omega
    · have ih := chunkRanges_bounds n (min (s + MAX_LINES_PER_CHUNK) n) r hr
      exact ⟨Nat.le_trans (by omega) ih.1, ih.2.1, ih.2.2.1, ih.2.2.2⟩
  · rw [chunkRanges_neg h]
    intro r hr
    cases hr
termination_by n - s
decreasing_by
  unfold MAX_LINES_PER_CHUNK
  omega

/-- Consecutive ranges are adjacent: each range's end is the next range's
start (so ranges are consecutive and non-overlapping). -/
theorem chunkRanges_chain (n s : Nat) :
    List.Chain' (fun a b : Nat × Nat => a.2 = b.1) (chunkRanges n s) := by
  by_cases h : s < n
  · rw [chunkRanges_pos h]
    apply List.chain'_cons'.mpr
    refine ⟨?_, chunkRanges_chain n (min (s + MAX_LINES_PER_CHUNK) n)⟩
    intro y hy
    by_cases h2 : min (s + MAX_LINES_PER_CHUNK) n < n
    · rw [chunkRanges_pos h2] at hy
      simp at hy
      rw [← hy]
    · rw [chunkRanges_neg h2] at hy
      simp at hy
  · rw [chunkRanges_neg h]
    exact List.chain'_nil
termination_by n - s
decreasing_by
  unfold MAX_LINES_PER_CHUNK
  omega

theorem joinLines_cons_ne (a : String) (l : List String) (h : l ≠ []) :
    joinLines (a :: l) = a ++ "\n" ++ joinLines l := by
  cases l with
  | nil => cases h rfl
  | cons b t => rfl

theorem joinLines_append (l₁ l₂ : List String) (h₁ : l₁ ≠ []) (h₂ : l₂ ≠ []) :
    joinLines (l₁ ++ l₂) = joinLines l₁ ++ "\n" ++ joinLines l₂ := by
  induction l₁ with
  | nil => cases h₁ rfl
  | cons a t ih =>
    cases t with
    | nil =>
      rw [List.singleton_append, joinLines_cons_ne a l₂ h₂]
      rfl
    | cons a' t' =>
      rw [List.cons_append, joinLines_cons_ne a ((a' :: t') ++ l₂) (by simp),
        joinLines_cons_ne a (a' :: t') (by simp), ih (by simp)]
      simp only [String.append_assoc]

/-- The slices cut by the chunking loop partition the file's lines: their
concatenation, in order, is exactly the lines from the loop start on. -/
theorem chunkRanges_flatten (lines : List String) (s : Nat) :
    ((chunkRanges lines.length s).map (fun r => (lines.drop r.1).take (r.2 - r.1))).flatten =
      lines.drop s := by
  by_cases h : s < lines.length
  · rw [chunkRanges_pos h, List.map_cons, List.flatten_cons,
      chunkRanges_flatten lines (min (s + MAX_LINES_PER_CHUNK) lines.length)]
    have hd : (lines.drop s).drop (min (s + MAX_LINES_PER_CHUNK) lines.length - s) =
        lines.drop (min (s + MAX_LINES_PER_CHUNK) lines.length) := by
      rw [List.drop_drop]
      congr 1
      omega
    rw [← hd, List.take_append_drop]
  · rw [chunkRanges_neg h, List.map_nil, List.flatten_nil]
    rw [List.drop_eq_nil_of_le (by omega)]
termination_by lines.length - s
decreasing_by
  unfold MAX_LINES_PER_CHUNK
  omega

/-- Joining the chunks' contents with a newline between consecutive
chunks reconstructs the joined line sequence of the file from the loop
start on. -/
theorem chunkRanges_joinLines (lines : List String) (s : Nat) :
    joinLines ((chunkRanges lines.length s).map
        (fun r => joinLines ((lines.drop r.1).take (r.2 - r.1)))) =
      joinLines (lines.drop s) := by
  by_cases h : s < lines.length
  · rw [chunkRanges_pos h, List.map_cons]
    have hsplit : lines.drop s =
        (lines.drop s).take (min (s + MAX_LINES_PER_CHUNK) lines.length - s) ++
          lines.drop (min (s + MAX_LINES_PER_CHUNK) lines.length) := by
      conv_lhs => rw [← List.take_append_drop
        (min (s + MAX_LINES_PER_CHUNK) lines.length - s) (lines.drop s)]
      rw [List.drop_drop]
      congr 2
      omega
    by_cases h2 : min (s + MAX_LINES_PER_CHUNK) lines.length < lines.length
    · have ihr := chunkRanges_joinLines lines (min (s + MAX_LINES_PER_CHUNK) lines.length)
      have hxs : ((chunkRanges lines.length (min (s + MAX_LINES_PER_CHUNK) lines.length)).map
          (fun r => joinLines ((lines.drop r.1).take (r.2 - r.1)))) ≠ [] := by
        rw [chunkRanges_pos h2]
        simp
      rw [joinLines_cons_ne _ _ hxs, ihr]
      conv_rhs => rw [hsplit]
      rw [joinLines_append]
      · have hslice : ((lines.drop s).take
            (min (s + MAX_LINES_PER_CHUNK) lines.length - s)).length ≠ 0 := by
          rw [List.length_take, List.length_drop]
          unfold MAX_LINES_PER_CHUNK
          omega
        intro hc
        exact hslice (by rw [hc]; rfl)
      · intro hc
        have := congrArg List.length hc
        rw [List.length_drop] at this
        simp at this
        omega
    · have he : min (s + MAX_LINES_PER_CHUNK) lines.length = lines.length := by omega
      rw [chunkRanges_neg h2, List.map_nil]
      show joinLines [joinLines ((lines.drop s).take
        (min (s + MAX_LINES_PER_CHUNK) lines.length - s))] = joinLines (lines.drop s)
      have htake : (lines.drop s).take (min (s + MAX_LINES_PER_CHUNK) lines.length - s) =
          lines.drop s := by
        rw [he]
        rw [show lines.length - s = (lines.drop s).length by rw [List.length_drop]]
        exact List.take_length _
      rw [htake]
      rfl
  · rw [chunkRanges_neg h, List.map_nil, List.drop_eq_nil_of_le (by omega)]
termination_by lines.length - s
decreasing_by
  unfold MAX_LINES_PER_CHUNK
  omega

/-- The first range starts at the loop start. -/
theorem chunkRanges_head (n s : Nat) (h : s < n) :
    (chunkRanges n s).head?.map Prod.fst = some s := by
  rw [chunkRanges_pos h]
  rfl

/-- The last range ends at the total line count. -/
theorem chunkRanges_last (n s : Nat) (h : s < n) :
    ∃ r, (chunkRanges n s).getLast? = some r ∧ r.2 = n := by
  by_cases h2 : min (s + MAX_LINES_PER_CHUNK) n < n
  · obtain ⟨r, hr, hrn⟩ := chunkRanges_last n (min (s + MAX_LINES_PER_CHUNK) n) h2
    refine ⟨r, ?_, hrn⟩
    rw [chunkRanges_pos h]
    rw [chunkRanges_pos h2] at hr ⊢
    rw [List.getLast?_cons_cons]
    rw [← chunkRanges_pos h2] at hr ⊢
    exact hr
  · refine ⟨(s, min (s + MAX_LINES_PER_CHUNK) n), ?_, by omega⟩
    rw [chunkRanges_pos h, chunkRanges_neg h2]
    rfl
termination_by n - s
decreasing_by
  unfold MAX_LINES_PER_CHUNK
  omega

/-! ## The main.rs pipeline

The git tree walk (main.rs lines 112-251) is modelled by its outcome: the
deterministic sequence of `(file_path, file_str)` pairs of the UTF-8
decodable blobs the walk visits, in walk order.  The regex engine, the
OpenAI embedding service, the sqlite vector-store write and the rag-agent
completion call are external crates; they enter the model as an abstract
per-line matcher function and per-batch success oracles. -/

/-- The extension-to-language classification of the walker
(main.rs lines 133-141). -/
def extensionOf (file_path : String) : String :=
  if strEndsWith file_path ".py" then "python"
  else if strEndsWith file_path ".pyx" || strEndsWith file_path ".pxd" then "cython"
  else if strEndsWith file_path ".rs" || strEndsWith file_path ".r" then "rust"
  else "unknown"

/-- The snippet collection of the walker (main.rs lines 127-159): every
visited file with a recognized extension contributes exactly one
`CodeChunk` whose id is `format!("{}::{}", commit.id(), file_path)` and
whose content is the whole file text. -/
def collectCodeSnippets (commitId : String) (files : List (String × String)) :
    List CodeChunk :=
  (files.filter fun f => extensionOf f.1 != "unknown").map fun f =>
    { id := commitId ++ "::" ++ f.1,
      content := f.2,
      language := extensionOf f.1,
      file_path := f.1 }

/-- The indicator discovery of the walker (main.rs lines 163-229): for
each recognized file, scan its lines with the language's indicator regex
and record `(file_path, indicator_name, extension)` per match.  The regex
engine (an external crate) is abstracted as `matcher ext line = some
name` when the line matches the pattern for `ext` with capture `name`. -/
def extractIndicators (matcher : String → String → Option String)
    (files : List (String × String)) : List (String × String × String) :=
  ((files.filter fun f => extensionOf f.1 != "unknown").map fun f =>
    ((rustLines f.2).filterMap (matcher (extensionOf f.1))).map fun name =>
      (f.1, name, extensionOf f.1)).flatten

/-- The file `indicators.csv` written by main.rs lines 256-266: a header line
`filename,indicator_name,extension` followed by one comma-joined line per
discovered indicator. -/
def indicatorsCsvLines (indicators : List (String × String × String)) : List String :=
  "filename,indicator_name,extension" ::
    indicators.map fun r => r.1 ++ "," ++ r.2.1 ++ "," ++ r.2.2

/-- The dedup filter (main.rs lines 303-306): keep exactly the collected
snippets whose id is not among the ids already present in the
`code_chunks` table. -/
def new_snippets (code_snippets : List CodeChunk) (existing_ids : List String) :
    List CodeChunk :=
  code_snippets.filter fun s => !(existing_ids.contains s.id)

/-- Constant `BATCH_SIZE` (main.rs line 311). -/
def BATCH_SIZE : Nat := 50

/-- Batching: `new_snippets.chunks(BATCH_SIZE)` (main.rs line 319): partition the
new snippets into consecutive batches of at most `BATCH_SIZE`. -/
def toBatches (l : List CodeChunk) : List (List CodeChunk) :=
  if h : l.isEmpty then [] else l.take BATCH_SIZE :: toBatches (l.drop BATCH_SIZE)
termination_by l.length
decreasing_by
  unfold BATCH_SIZE
  cases l with
  | nil => simp at h
  | cons a t =>
    simp only [List.length_drop, List.length_cons]
    omega

/-- A batch-level failure (main.rs lines 327 and 330): either the
embedding call (`builder.build().await?`) or the vector-store write
(`vector_store.add_rows(embeddings).await?`) returns an error, which `?`
propagates out of `main`, ending the run. -/
inductive BatchError where
  | embedFailed (batchIndex : Nat)
  | storeFailed (batchIndex : Nat)
deriving Repr, DecidableEq

/-- The observable outcome of the batching loop (main.rs lines 310-332):
the ids present in the vector store afterwards, the `total_embedded`
counter, the snippets that were handed to the embedding service, and
whether (and where) the loop was aborted by an error. -/
structure RunState where
  storeIds : List String
  totalEmbedded : Nat
  submitted : List CodeChunk
  batchError : Option BatchError
deriving Repr, DecidableEq

/-- The batching loop (main.rs lines 319-332), sequential over batches:
each batch is handed to the embedding service
(`builder.document(...)` / `builder.build()`); on embedding success the
resulting rows are written to the store (`add_rows`), extending the
store's id set by the batch's snippet ids and increasing
`total_embedded` by the batch length; an embedding or store error stops
the loop (the `?` operator returns from `main`), leaving the store as it
was before the failing batch.  `embedOk i` / `storeOk i` say whether
batch `i`'s embedding call / store write succeeds. -/
def runBatchLoop (embedOk storeOk : Nat → Bool) (batchIndex : Nat)
    (storeIds : List String) (totalEmbedded : Nat) (submitted : List CodeChunk) :
    List (List CodeChunk) → RunState
  | [] =>
    { storeIds := storeIds, totalEmbedded := totalEmbedded,
      submitted := submitted, batchError := none }
  | batch :: rest =>
    if embedOk batchIndex then
      if storeOk batchIndex then
        runBatchLoop embedOk storeOk (batchIndex + 1)
          (storeIds ++ batch.map (fun c => c.id))
          (totalEmbedded + batch.length) (submitted ++ batch) rest
      else
        { storeIds := storeIds, totalEmbedded := totalEmbedded,
          submitted := submitted ++ batch,
          batchError := some (BatchError.storeFailed batchIndex) }
    else
      { storeIds := storeIds, totalEmbedded := totalEmbedded,
        submitted := submitted ++ batch,
        batchError := some (BatchError.embedFailed batchIndex) }

/-- What one pipeline run of main.rs produces: the `indicators.csv`
contents (the run's tracking ledger, lines 256-266) and the outcome of
the dedup + batch-embedding phase (lines 285-332). -/
structure PipelineResult where
  ledgerLines : List String
  run : RunState
deriving Repr, DecidableEq

/-- One run of the main.rs pipeline against a snapshot: collect snippets
from the walked tree (lines 112-251), write `indicators.csv`
(lines 256-266), read the store's existing id set (lines 287-300), filter
out duplicates (lines 303-306), and embed the remainder in batches
(lines 310-332).  `store0` is the id set the `code_chunks` table holds
when the run starts. -/
def runPipeline (matcher : String → String → Option String)
    (embedOk storeOk : Nat → Bool) (commitId : String)
    (files : List (String × String)) (store0 : List String) : PipelineResult :=
  { ledgerLines := indicatorsCsvLines (extractIndicators matcher files),
    run := runBatchLoop embedOk storeOk 0 store0 0 []
      (toBatches (new_snippets (collectCodeSnippets commitId files) store0)) }

/-- Success oracle for runs in which every external call succeeds. -/
def alwaysOk : Nat → Bool := fun _ => true

/-- The report phase (main.rs lines 340-368): a single
`rag_agent.prompt(...).await?` call produces the whole comparison table;
on success the table is written as the content of
`README_comparison.md`, on failure the `?` operator aborts `main` with
the error and nothing is written. -/
def reportPhase (promptResult : Except String String) :
    Except String (List String) :=
  match promptResult with
  | Except.ok comparison_table => Except.ok [comparison_table]
  | Except.error e => Except.error e

/-! ## The utils.rs directory collector and CSV writer -/

/-- The extension filter of `collect_snippets_from_dir`
(utils.rs lines 39-51): a file is recognized when its lowercased path
ends with one of the filter extensions. -/
def recognizedBy (extension_filter : List String) (path : String) : Bool :=
  extension_filter.any fun ext => strEndsWith (strToLower path) ext

/-- Function `collect_snippets_from_dir` (utils.rs lines 19-95) with the walked
directory modelled by the list of readable `(path, contents)` files it
visits, in walk order: chunk every recognized file with the 300-line
chunking loop. -/
def collect_snippets_from_dir (files : List (String × String))
    (extension_filter : List String) (lang_label : String) : List CodeChunk :=
  ((files.filter fun f => recognizedBy extension_filter f.1).map fun f =>
    chunkFile f.1 lang_label f.2).flatten

/-- Function `collect_all_snippets` (utils.rs lines 99-119): Python/Cython
indicator files then Rust indicator files, each via
`collect_snippets_from_dir`. -/
def collect_all_snippets (pyFiles rsFiles : List (String × String)) : List CodeChunk :=
  collect_snippets_from_dir pyFiles [".py", ".pyx", ".pxd"] "cython_python" ++
    collect_snippets_from_dir rsFiles [".rs"] "rust"

/-- The extension label of `save_indicators_csv` (utils.rs lines 153-164). -/
def extensionLabel (file_path : String) : String :=
  if strEndsWith file_path ".rs" then "rust"
  else if strEndsWith file_path ".pyx" || strEndsWith file_path ".pxd" then "cython"
  else if strEndsWith file_path ".py" then "python"
  else "unknown"

/-- Join strings with a separator, as Rust's `join`/`intercalate` do. -/
def joinWith (sep : String) : List String → String
  | [] => ""
  | [a] => a
  | a :: b :: rest => a ++ sep ++ joinWith sep (b :: rest)

/-- Rust's `Path::file_name` as used in utils.rs line 168 (for paths
without a trailing slash): the component after the last `/`. -/
def fileNameOf (path : String) : String :=
  (((splitOnChar '/' path.data).map String.mk).getLast?).getD ""

/-- Model of `filename_only.rsplit_once('.').map(|(base, _)| base)
.unwrap_or(&filename_only)` (utils.rs lines 169-173): drop the final
`.`-separated extension, if any. -/
def rsplitOnceDot (s : String) : String :=
  if ((splitOnChar '.' s.data).map String.mk).length ≤ 1 then s
  else joinWith "." ((splitOnChar '.' s.data).map String.mk).dropLast

/-- One `IndicatorRecord` CSV row per snippet (utils.rs lines 147-182):
`filename` is the snippet's full path, `indicator_name` the file's
basename minus its final extension, `extension` the label from the
path. -/
def indicatorRecordRow (snippet : CodeChunk) : List String :=
  [snippet.file_path, rsplitOnceDot (fileNameOf snippet.file_path),
    extensionLabel snippet.file_path]

/-- Function `save_indicators_csv` (utils.rs lines 136-187): the header record
then one serialized record per collected snippet. -/
def save_indicators_csv (pyFiles rsFiles : List (String × String)) :
    List (List String) :=
  ["filename", "indicator_name", "extension"] ::
    (collect_all_snippets pyFiles rsFiles).map indicatorRecordRow

/-! ## Lemmas about the dedup filter and the batch loop -/

theorem mem_new_snippets {c : CodeChunk} {l : List CodeChunk} {ids : List String} :
    c ∈ new_snippets l ids ↔ c ∈ l ∧ c.id ∉ ids := by
  simp [new_snippets, List.mem_filter, List.contains]

theorem toBatches_nil : toBatches [] = [] := by
  rw [toBatches]
  rfl

theorem toBatches_cons {l : List CodeChunk} (h : l ≠ []) :
    toBatches l = l.take BATCH_SIZE :: toBatches (l.drop BATCH_SIZE) := by
  rw [toBatches]
  simp [h]

/-- The batches partition the new snippets: concatenating them in order
restores the input list. -/
theorem toBatches_flatten (l : List CodeChunk) : (toBatches l).flatten = l := by
  by_cases h : l = []
  · subst h
    rw [toBatches_nil]
    rfl
  · rw [toBatches_cons h, List.flatten_cons, toBatches_flatten (l.drop BATCH_SIZE),
      List.take_append_drop]
termination_by l.length
decreasing_by
  unfold BATCH_SIZE
  cases l with
  | nil => cases h rfl
  | cons a t =>
    simp only [List.length_drop, List.length_cons]
    omega

/-- When every batch's embedding call and store write succeed, the loop
commits every batch: the store gains every submitted id, the counter
gains every batch's length, and no error is reported. -/
theorem runBatchLoop_allOk (embedOk storeOk : Nat → Bool)
    (he : ∀ j, embedOk j = true) (hs : ∀ j, storeOk j = true) :
    ∀ (batches : List (List CodeChunk)) (i : Nat) (store : List String)
      (total : Nat) (sub : List CodeChunk),
      runBatchLoop embedOk storeOk i store total sub batches =
        { storeIds := store ++ batches.flatten.map (fun c => c.id),
          totalEmbedded := total + batches.flatten.length,
          submitted := sub ++ batches.flatten,
          batchError := none } := by
  intro batches
  induction batches with
  | nil => intro i store total sub; simp [runBatchLoop]
  | cons b rest ih =>
    intro i store total sub
    rw [runBatchLoop]
    rw [if_pos (he i), if_pos (hs i), ih]
    simp [List.append_assoc, Nat.add_assoc]

/-- Whatever the oracles do, every snippet the loop hands to the
embedding service comes from the accumulated `sub` or from one of the
batches. -/
theorem runBatchLoop_submitted_sub (embedOk storeOk : Nat → Bool) :
    ∀ (batches : List (List CodeChunk)) (i : Nat) (store : List String)
      (total : Nat) (sub : List CodeChunk) (c : CodeChunk),
      c ∈ (runBatchLoop embedOk storeOk i store total sub batches).submitted →
      c ∈ sub ∨ c ∈ batches.flatten := by
  intro batches
  induction batches with
  | nil =>
    intro i store total sub c hc
    exact Or.inl hc
  | cons b rest ih =>
    intro i store total sub c hc
    rw [runBatchLoop] at hc
    by_cases h1 : embedOk i
    · by_cases h2 : storeOk i
      · rw [if_pos h1, if_pos h2] at hc
        rcases ih (i + 1) _ _ _ c hc with h | h
        · rcases List.mem_append.mp h with h | h
          · exact Or.inl h
          · exact Or.inr (List.mem_flatten_of_mem (List.mem_cons_self _ _) h)
        · exact Or.inr (by rw [List.flatten_cons]; exact List.mem_append_right _ h)
      · rw [if_pos h1, if_neg h2] at hc
        rcases List.mem_append.mp hc with h | h
        · exact Or.inl h
        · exact Or.inr (List.mem_flatten_of_mem (List.mem_cons_self _ _) h)
    · rw [if_neg h1] at hc
      rcases List.mem_append.mp hc with h | h
      · exact Or.inl h
      · exact Or.inr (List.mem_flatten_of_mem (List.mem_cons_self _ _) h)

/-- A loop run that reports no error has handed exactly `sub` followed by
every batch, in order, to the embedding service. -/
theorem runBatchLoop_complete (embedOk storeOk : Nat → Bool) :
    ∀ (batches : List (List CodeChunk)) (i : Nat) (store : List String)
      (total : Nat) (sub : List CodeChunk),
      (runBatchLoop embedOk storeOk i store total sub batches).batchError = none →
      (runBatchLoop embedOk storeOk i store total sub batches).submitted =
        sub ++ batches.flatten := by
  intro batches
  induction batches with
  | nil =>
    intro i store total sub _
    simp [runBatchLoop]
  | cons b rest ih =>
    intro i store total sub herr
    rw [runBatchLoop] at herr ⊢
    by_cases h1 : embedOk i
    · by_cases h2 : storeOk i
      · rw [if_pos h1, if_pos h2] at herr ⊢
        rw [ih (i + 1) _ _ _ herr]
        simp [List.append_assoc]
      · rw [if_pos h1, if_neg h2] at herr
        cases herr
    · rw [if_neg h1] at herr
      cases herr

/-- When the first `k` batches succeed and batch `k` fails (its embedding
call or its store write errors), the loop stops with an error at batch
`k`; the store then holds exactly its initial ids plus the ids of the
first `k` batches. -/
theorem runBatchLoop_failAt (embedOk storeOk : Nat → Bool) :
    ∀ (k : Nat) (batches : List (List CodeChunk)) (i : Nat) (store : List String)
      (total : Nat) (sub : List CodeChunk),
      (∀ j, j < k → embedOk (i + j) = true ∧ storeOk (i + j) = true) →
      (embedOk (i + k) = false ∨ storeOk (i + k) = false) →
      k < batches.length →
      (runBatchLoop embedOk storeOk i store total sub batches).storeIds =
          store ++ ((batches.take k).flatten.map fun c => c.id) ∧
        (runBatchLoop embedOk storeOk i store total sub batches).batchError ≠ none := by
  intro k
  induction k with
  | zero =>
    intro batches i store total sub _ hfail hk
    cases batches with
    | nil => simp at hk
    | cons b rest =>
      rw [runBatchLoop]
      rcases hfail with hf | hf
      · rw [Nat.add_zero] at hf
        rw [if_neg (by simp [hf])]
        simp
      · rw [Nat.add_zero] at hf
        by_cases h1 : embedOk i
        · rw [if_pos h1, if_neg (by simp [hf])]
          simp
        · rw [if_neg h1]
          simp
  | succ k ih =>
    intro batches i store total sub hpre hfail hk
    cases batches with
    | nil => simp at hk
    | cons b rest =>
      have h0 := hpre 0 (Nat.succ_pos k)
      rw [Nat.add_zero] at h0
      rw [runBatchLoop, if_pos h0.1, if_pos h0.2]
      have hpre' : ∀ j, j < k → embedOk (i + 1 + j) = true ∧ storeOk (i + 1 + j) = true := by
        intro j hj
        have := hpre (j + 1) (by omega)
        rw [show i + (j + 1) = i + 1 + j by omega] at this
        exact this
      have hfail' : embedOk (i + 1 + k) = false ∨ storeOk (i + 1 + k) = false := by
        rw [show i + 1 + k = i + (k + 1) by omega]
        exact hfail
      have hk' : k < rest.length := by
        simp only [List.length_cons] at hk
        omega
      obtain ⟨hst, herr⟩ := ih rest (i + 1) (store ++ b.map fun c => c.id)
        (total + b.length) (sub ++ b) hpre' hfail' hk'
      refine ⟨?_, herr⟩
      rw [hst]
      simp [List.append_assoc]

theorem chunkRanges_two_le {n : Nat} (h : MAX_LINES_PER_CHUNK < n) :
    2 ≤ (chunkRanges n 0).length := by
  have h1 : (0 : Nat) < n := by omega
  rw [chunkRanges_pos h1]
  have h2 : min (0 + MAX_LINES_PER_CHUNK) n = MAX_LINES_PER_CHUNK := by omega
  rw [h2, chunkRanges_pos h]
  simp

/-! ## Claims about the chunker -/

/-- C9: the chunks `collect_snippets_from_dir` produces for a file have
line ranges that start at 0, are consecutive and non-overlapping, end at
the file's total line count, partition the file's lines exactly, and
joining the chunk contents with a newline between consecutive chunks
reconstructs the file's joined line sequence. -/
theorem C9_chunk_partition (p lang content : String) :
    chunkFile p lang content =
      (chunkRanges (rustLines content).length 0).map (sliceChunk p lang (rustLines content))
  ∧ List.Chain' (fun a b : Nat × Nat => a.2 = b.1)
      (chunkRanges (rustLines content).length 0)
  ∧ (∀ r ∈ chunkRanges (rustLines content).length 0,
      r.1 < r.2 ∧ r.2 ≤ (rustLines content).length)
  ∧ (rustLines content ≠ [] →
      (chunkRanges (rustLines content).length 0).head?.map Prod.fst = some 0
      ∧ ∃ r, (chunkRanges (rustLines content).length 0).getLast? = some r ∧
          r.2 = (rustLines content).length)
  ∧ ((chunkRanges (rustLines content).length 0).map
      (fun r => ((rustLines content).drop r.1).take (r.2 - r.1))).flatten = rustLines content
  ∧ joinLines ((chunkFile p lang content).map fun c => c.content) =
      joinLines (rustLines content) := by
  refine ⟨chunkLoop_eq_map p lang (rustLines content) 0, chunkRanges_chain _ 0, ?_, ?_, ?_, ?_⟩
  · intro r hr
    have := chunkRanges_bounds _ 0 r hr
    exact ⟨this.2.1, this.2.2.1⟩
  · intro hne
    have hpos : 0 < (rustLines content).length := List.length_pos.mpr hne
    exact ⟨chunkRanges_head _ 0 hpos, chunkRanges_last _ 0 hpos⟩
  · have := chunkRanges_flatten (rustLines content) 0
    rwa [List.drop_zero] at this
  · rw [chunkFile, chunkLoop_eq_map, List.map_map]
    have hmap : (sliceChunk p lang (rustLines content) · |>.content) =
        fun r : Nat × Nat => joinLines (((rustLines content).drop r.1).take (r.2 - r.1)) := by
      funext r
      rfl
    rw [Function.comp_def]
    have := chunkRanges_joinLines (rustLines content) 0
    rw [List.drop_zero] at this
    exact this

/-- C9 witness: concrete instance of the reconstruction property. -/
theorem C9_chunk_partition_witness :
    (chunkRanges (rustLines "a\nb").length 0).head?.map Prod.fst = some 0 :=
  ((C9_chunk_partition "f.rs" "rust" "a\nb").2.2.2.1 (by decide)).1

/-- C5 counterexample: in the embedding pipeline of main.rs, an empty
file does not yield zero chunks: the walker pushes exactly one
`CodeChunk` per recognized file, spanning the whole file and capped by
nothing, so an empty `.py` file yields one chunk with empty content. -/
theorem C5_counterexample :
    collectCodeSnippets "c" [("f.py", "")] =
        [{ id := "c::f.py", content := "", language := "python", file_path := "f.py" }]
  ∧ (collectCodeSnippets "c" [("f.py", "")]).length ≠ 0 := by
  constructor
  · decide
  · decide

/-- C5 amended: the 300-line cap, the zero-chunks-for-empty-file rule and
the one-chunk-for-short-file rule all hold for the chunker of
`collect_snippets_from_dir` in utils.rs (the main.rs pipeline instead
emits one uncapped whole-file chunk per file, see the counterexample). -/
theorem C5_amended (p lang content : String) :
    chunkFile p lang "" = []
  ∧ (rustLines content ≠ [] → (rustLines content).length ≤ MAX_LINES_PER_CHUNK →
      chunkFile p lang content =
        [{ id := chunkId p 0 (rustLines content).length,
           content := joinLines (rustLines content),
           language := lang, file_path := p }])
  ∧ (∀ c ∈ chunkFile p lang content,
      ∃ r ∈ chunkRanges (rustLines content).length 0,
        c = sliceChunk p lang (rustLines content) r ∧
          r.2 - r.1 ≤ MAX_LINES_PER_CHUNK) := by
  refine ⟨?_, ?_, ?_⟩
  · have hempty : rustLines "" = [] := by decide
    rw [chunkFile, hempty, chunkLoop_neg (by simp)]
  · intro hne hlen
    have hpos : 0 < (rustLines content).length := List.length_pos.mpr hne
    rw [chunkFile, chunkLoop_pos hpos]
    have hmin : min (0 + MAX_LINES_PER_CHUNK) (rustLines content).length =
        (rustLines content).length := by omega
    rw [chunkLoop_neg (by omega)]
    simp only [sliceChunk, hmin]
    rw [List.drop_zero, Nat.sub_zero, List.take_length]
  · intro c hc
    rw [chunkFile, chunkLoop_eq_map] at hc
    obtain ⟨r, hr, rfl⟩ := List.mem_map.mp hc
    exact ⟨r, hr, rfl, (chunkRanges_bounds _ 0 r hr).2.2.2⟩

/-- C5 witness: a one-line file yields exactly one chunk spanning the
whole file. -/
theorem C5_amended_witness :
    chunkFile "f.py" "python" "a" =
      [{ id := "FS::f.py::chunk_0_1", content := "a",
         language := "python", file_path := "f.py" }] := by
  have h := (C5_amended "f.py" "python" "a").2.1 (by decide) (by decide)
  rw [h]
  decide

/-- C6: chunking is a pure function of `(path, content)` — the same
content chunked twice yields byte-identical identities and text — and
each identity is derived from the path and the chunk's start/end line
positions (utils.rs) or from the commit id and the path (main.rs), not
from an unstable counter. -/
theorem C6_determinism (p lang commitId content₁ content₂ : String)
    (files : List (String × String)) (h : content₁ = content₂) :
    chunkFile p lang content₁ = chunkFile p lang content₂
  ∧ collectCodeSnippets commitId [(p, content₁)] = collectCodeSnippets commitId [(p, content₂)]
  ∧ chunkFile p lang content₁ =
      (chunkRanges (rustLines content₁).length 0).map (sliceChunk p lang (rustLines content₁))
  ∧ ∀ c ∈ collectCodeSnippets commitId files, c.id = commitId ++ "::" ++ c.file_path := by
  subst h
  refine ⟨rfl, rfl, chunkLoop_eq_map p lang (rustLines content₁) 0, ?_⟩
  intro c hc
  obtain ⟨f, _, rfl⟩ := List.mem_map.mp hc
  rfl

/-- C6 witness: the identity-derivation conjunct at a concrete file. -/
theorem C6_determinism_witness :
    chunkFile "f.py" "python" "x" =
      (chunkRanges (rustLines "x").length 0).map (sliceChunk "f.py" "python" (rustLines "x")) :=
  (C6_determinism "f.py" "python" "c" "x" "x" [] rfl).2.2.1

/-- C10: `save_indicators_csv` writes one row per collected chunk, with
`indicator_name` the file's basename minus its final extension; a file
longer than 300 lines therefore contributes at least two identical rows. -/
theorem C10_row_per_chunk (p content : String)
    (hp : strEndsWith (strToLower p) ".rs" = true)
    (hlen : MAX_LINES_PER_CHUNK < (rustLines content).length) :
    (save_indicators_csv [] [(p, content)]).head? =
        some ["filename", "indicator_name", "extension"]
  ∧ (save_indicators_csv [] [(p, content)]).tail =
      (chunkFile p "rust" content).map indicatorRecordRow
  ∧ 2 ≤ ((save_indicators_csv [] [(p, content)]).tail).length
  ∧ ∀ row ∈ (save_indicators_csv [] [(p, content)]).tail,
      row = [p, rsplitOnceDot (fileNameOf p), extensionLabel p] := by
  have hcol : collect_all_snippets [] [(p, content)] = chunkFile p "rust" content := by
    simp [collect_all_snippets, collect_snippets_from_dir, recognizedBy, hp]
  have htail : (save_indicators_csv [] [(p, content)]).tail =
      (chunkFile p "rust" content).map indicatorRecordRow := by
    simp [save_indicators_csv, hcol]
  refine ⟨rfl, htail, ?_, ?_⟩
  · rw [htail, List.length_map, chunkFile, chunkLoop_eq_map, List.length_map]
    exact chunkRanges_two_le hlen
  · intro row hrow
    rw [htail] at hrow
    obtain ⟨c, hc, rfl⟩ := List.mem_map.mp hrow
    rw [chunkFile, chunkLoop_eq_map] at hc
    obtain ⟨r, _, rfl⟩ := List.mem_map.mp hc
    rfl

/-- C10 witness: a 301-line file yields at least two (identical) CSV
rows. -/
theorem C10_row_per_chunk_witness :
    2 ≤ ((save_indicators_csv []
        [("a.rs", String.mk (List.replicate 301 '\n'))]).tail).length :=
  (C10_row_per_chunk "a.rs" (String.mk (List.replicate 301 '\n'))
    (by decide) (by decide)).2.2.1

/-! ## Claims about the main.rs pipeline -/

/-- C1: the pipeline never re-submits a chunk whose identity is already
in the store's id set — every snippet handed to the embedding service is
a discovered snippet whose id is absent from `store0` — and in a run
that completes without a batch error, the snippets handed to the
embedding service are exactly the discovered snippets whose ids are
absent from `store0`. -/
theorem C1_dedup (matcher : String → String → Option String)
    (embedOk storeOk : Nat → Bool) (commitId : String)
    (files : List (String × String)) (store0 : List String) :
    (∀ c ∈ (runPipeline matcher embedOk storeOk commitId files store0).run.submitted,
        c ∈ collectCodeSnippets commitId files ∧ c.id ∉ store0)
  ∧ ((runPipeline matcher embedOk storeOk commitId files store0).run.batchError = none →
      (runPipeline matcher embedOk storeOk commitId files store0).run.submitted =
        new_snippets (collectCodeSnippets commitId files) store0) := by
  constructor
  · intro c hc
    simp only [runPipeline] at hc
    rcases runBatchLoop_submitted_sub embedOk storeOk _ 0 store0 0 [] c hc with h | h
    · cases h
    · rw [toBatches_flatten] at h
      exact mem_new_snippets.mp h
  · intro herr
    simp only [runPipeline] at herr ⊢
    have h := runBatchLoop_complete embedOk storeOk _ 0 store0 0 [] herr
    rw [toBatches_flatten] at h
    simpa using h

/-- C1 witness: with the sole discovered chunk's id already in the
store, nothing is submitted for embedding. -/
theorem C1_dedup_witness :
    (runPipeline (fun _ _ => none) alwaysOk alwaysOk "c" [("a.py", "x")]
        ["c::a.py"]).run.submitted = [] := by
  have hns : new_snippets (collectCodeSnippets "c" [("a.py", "x")]) ["c::a.py"] = [] := by
    decide
  have herr : (runPipeline (fun _ _ => none) alwaysOk alwaysOk "c" [("a.py", "x")]
      ["c::a.py"]).run.batchError = none := by
    simp only [runPipeline]
    rw [hns, toBatches_nil]
    rfl
  have h := (C1_dedup (fun _ _ => none) alwaysOk alwaysOk "c" [("a.py", "x")]
    ["c::a.py"]).2 herr
  rw [h, hns]

/-- C2: running the pipeline twice against the same snapshot, the
second run embeds zero new records, leaves the store's id set unchanged
and rewrites a byte-identical `indicators.csv` ledger. -/
theorem C2_idempotence (matcher : String → String → Option String)
    (commitId : String) (files : List (String × String)) (store0 : List String) :
    (runPipeline matcher alwaysOk alwaysOk commitId files
        (runPipeline matcher alwaysOk alwaysOk commitId files store0).run.storeIds).run.totalEmbedded = 0
  ∧ (runPipeline matcher alwaysOk alwaysOk commitId files
        (runPipeline matcher alwaysOk alwaysOk commitId files store0).run.storeIds).run.storeIds =
      (runPipeline matcher alwaysOk alwaysOk commitId files store0).run.storeIds
  ∧ (runPipeline matcher alwaysOk alwaysOk commitId files
        (runPipeline matcher alwaysOk alwaysOk commitId files store0).run.storeIds).ledgerLines =
      (runPipeline matcher alwaysOk alwaysOk commitId files store0).ledgerLines := by
  have hstore1 : (runPipeline matcher alwaysOk alwaysOk commitId files store0).run.storeIds =
      store0 ++ (new_snippets (collectCodeSnippets commitId files) store0).map (fun c => c.id) := by
    simp only [runPipeline]
    rw [runBatchLoop_allOk alwaysOk alwaysOk (fun _ => rfl) (fun _ => rfl), toBatches_flatten]
  have hall : ∀ s ∈ collectCodeSnippets commitId files,
      s.id ∈ (runPipeline matcher alwaysOk alwaysOk commitId files store0).run.storeIds := by
    intro s hs
    rw [hstore1]
    by_cases hmem : s.id ∈ store0
    · exact List.mem_append_left _ hmem
    · exact List.mem_append_right _
        (List.mem_map_of_mem _ (mem_new_snippets.mpr ⟨hs, hmem⟩))
  have hns2 : new_snippets (collectCodeSnippets commitId files)
      (runPipeline matcher alwaysOk alwaysOk commitId files store0).run.storeIds = [] := by
    rw [new_snippets, List.filter_eq_nil_iff]
    intro s hs
    simp [List.contains, List.elem_iff]
    exact hall s hs
  simp only [runPipeline] at hns2
  refine ⟨?_, ?_, rfl⟩
  · simp only [runPipeline]
    rw [hns2, toBatches_nil]
    rfl
  · simp only [runPipeline]
    rw [hns2, toBatches_nil]
    rfl

/-- C3: with the first `k` batches succeeding and batch `k` failing
(embedding error or store-write error — in particular an embedding
success followed by a store-write failure), the run reports an error,
every previously committed batch's ids and all initially present ids
remain in the store, and no id of the failing batch enters the store:
its snippets are still un-processed and are re-queued by the dedup
filter of the next run. -/
theorem C3_batch_failure (matcher : String → String → Option String)
    (embedOk storeOk : Nat → Bool) (commitId : String)
    (files : List (String × String)) (store0 : List String) (k : Nat)
    (hnodup : ((collectCodeSnippets commitId files).map (fun c => c.id)).Nodup)
    (hpre : ∀ j, j < k → embedOk j = true ∧ storeOk j = true)
    (hfail : embedOk k = false ∨ storeOk k = false)
    (hk : k < (toBatches (new_snippets (collectCodeSnippets commitId files) store0)).length) :
    (runPipeline matcher embedOk storeOk commitId files store0).run.batchError ≠ none
  ∧ (∀ id0 ∈ store0,
      id0 ∈ (runPipeline matcher embedOk storeOk commitId files store0).run.storeIds)
  ∧ (∀ c ∈ ((toBatches (new_snippets (collectCodeSnippets commitId files) store0)).take k).flatten,
      c.id ∈ (runPipeline matcher embedOk storeOk commitId files store0).run.storeIds)
  ∧ ∀ c ∈ (toBatches (new_snippets (collectCodeSnippets commitId files) store0)).getD k [],
      c.id ∉ (runPipeline matcher embedOk storeOk commitId files store0).run.storeIds
      ∧ c ∈ new_snippets (collectCodeSnippets commitId files)
          (runPipeline matcher embedOk storeOk commitId files store0).run.storeIds := by
  obtain ⟨hst, herr⟩ := runBatchLoop_failAt embedOk storeOk k
    (toBatches (new_snippets (collectCodeSnippets commitId files) store0)) 0 store0 0 []
    (by intro j hj; rw [Nat.zero_add]; exact hpre j hj)
    (by rw [Nat.zero_add]; exact hfail) hk
  have hflat : (toBatches (new_snippets (collectCodeSnippets commitId files) store0)).flatten =
      new_snippets (collectCodeSnippets commitId files) store0 := toBatches_flatten _
  have hsplit : (toBatches (new_snippets (collectCodeSnippets commitId files) store0)).getD k [] ∈
      (toBatches (new_snippets (collectCodeSnippets commitId files) store0)).drop k := by
    rw [List.drop_eq_getElem_cons hk]
    rw [List.getD_eq_getElem _ _ hk]
    exact List.mem_cons_self _ _
  refine ⟨?_, ?_, ?_, ?_⟩
  · simp only [runPipeline]
    exact herr
  · intro id0 hid0
    simp only [runPipeline]
    rw [hst]
    exact List.mem_append_left _ hid0
  · intro c hc
    simp only [runPipeline]
    rw [hst]
    exact List.mem_append_right _ (List.mem_map_of_mem _ hc)
  · intro c hc
    have hcflat : c ∈ (toBatches (new_snippets (collectCodeSnippets commitId files) store0)).flatten :=
      List.mem_flatten_of_mem (List.mem_of_mem_drop hsplit) hc
    have hcnew : c ∈ new_snippets (collectCodeSnippets commitId files) store0 := by
      rwa [hflat] at hcflat
    obtain ⟨hcsnip, hcid0⟩ := mem_new_snippets.mp hcnew
    -- the new snippets' ids are pairwise distinct
    have hndnew : ((new_snippets (collectCodeSnippets commitId files) store0).map
        (fun c => c.id)).Nodup :=
      hnodup.sublist ((List.filter_sublist _).map _)
    -- split the new snippets at batch k
    have hdecomp : new_snippets (collectCodeSnippets commitId files) store0 =
        ((toBatches (new_snippets (collectCodeSnippets commitId files) store0)).take k).flatten ++
          ((toBatches (new_snippets (collectCodeSnippets commitId files) store0)).drop k).flatten := by
      rw [← List.flatten_append, List.take_append_drop, hflat]
    have hcdrop : c ∈
        ((toBatches (new_snippets (collectCodeSnippets commitId files) store0)).drop k).flatten :=
      List.mem_flatten_of_mem hsplit hc
    have hdisj : c.id ∉
        (((toBatches (new_snippets (collectCodeSnippets commitId files) store0)).take k).flatten.map
          (fun c => c.id)) := by
      rw [hdecomp, List.map_append] at hndnew
      have := (List.nodup_append.mp hndnew).2.2
      intro hmem
      exact this hmem (List.mem_map_of_mem _ hcdrop)
    have hnotin : c.id ∉ (runPipeline matcher embedOk storeOk commitId files store0).run.storeIds := by
      simp only [runPipeline]
      rw [hst]
      intro hmem
      rcases List.mem_append.mp hmem with h | h
      · exact hcid0 h
      · exact hdisj h
    exact ⟨hnotin, mem_new_snippets.mpr ⟨hcsnip, hnotin⟩⟩

/-- C3 witness: a store-write failure on the only batch leaves an error
reported and an empty store. -/
theorem C3_batch_failure_witness :
    (runPipeline (fun _ _ => none) (fun _ => true) (fun _ => false) "c"
      [("a.py", "x")] []).run.batchError ≠ none := by
  have hns : new_snippets (collectCodeSnippets "c" [("a.py", "x")]) [] =
      [{ id := "c::a.py", content := "x", language := "python", file_path := "a.py" }] := by
    decide
  have hk : 0 < (toBatches (new_snippets (collectCodeSnippets "c" [("a.py", "x")]) [])).length := by
    rw [hns, toBatches_cons (by simp)]
    simp
  exact (C3_batch_failure (fun _ _ => none) (fun _ => true) (fun _ => false) "c"
    [("a.py", "x")] [] 0 (by decide)
    (by intro j hj; exact absurd hj (Nat.not_lt_zero j))
    (Or.inr rfl) hk).1

/-- C4: the requeue decision consults only the store's actual key set
(main.rs lines 287-306): whatever any ledger row claims about an
identity, a discovered chunk whose id is absent from the store is
re-queued for embedding, and after a run with no failures its id is in
the store. -/
theorem C4_reconciliation (matcher : String → String → Option String)
    (commitId : String) (files : List (String × String)) (store0 : List String)
    (processedClaim : String → Bool) (c : CodeChunk)
    (hc : c ∈ collectCodeSnippets commitId files)
    (habsent : c.id ∉ store0)
    (hclaims : processedClaim c.id = true) :
    c ∈ new_snippets (collectCodeSnippets commitId files) store0
  ∧ c.id ∈ (runPipeline matcher alwaysOk alwaysOk commitId files store0).run.storeIds := by
  have hmem := mem_new_snippets.mpr ⟨hc, habsent⟩
  refine ⟨hmem, ?_⟩
  simp only [runPipeline]
  rw [runBatchLoop_allOk alwaysOk alwaysOk (fun _ => rfl) (fun _ => rfl), toBatches_flatten]
  exact List.mem_append_right _ (List.mem_map_of_mem _ hmem)

/-- C4 witness: a chunk absent from the store but claimed processed is
re-embedded and lands in the store. -/
theorem C4_reconciliation_witness :
    "c::a.py" ∈ (runPipeline (fun _ _ => none) alwaysOk alwaysOk "c"
      [("a.py", "x")] []).run.storeIds :=
  (C4_reconciliation (fun _ _ => none) "c" [("a.py", "x")] [] (fun _ => true)
    { id := "c::a.py", content := "x", language := "python", file_path := "a.py" }
    (by decide) (by decide) rfl).2

/-- C7 counterexample: the tracking CSV written by the code has three
columns — `filename,indicator_name,extension` — with no `processed`
boolean column in the header (nor anywhere else), in both the main.rs
writer and the utils.rs writer. -/
theorem C7_counterexample :
    indicatorsCsvLines [] = ["filename,indicator_name,extension"]
  ∧ (splitOnChar ',' "filename,indicator_name,extension".data).map String.mk =
      ["filename", "indicator_name", "extension"]
  ∧ "processed" ∉ (["filename", "indicator_name", "extension"] : List String)
  ∧ ((splitOnChar ',' "filename,indicator_name,extension".data).map String.mk).length = 3
  ∧ (save_indicators_csv [] []).head? = some ["filename", "indicator_name", "extension"] := by
  refine ⟨rfl, by decide, by decide, by decide, rfl⟩

/-- C7 amended: the ledger CSV's fixed column set is
`filename, indicator_name, extension` (three columns, no `processed`
flag), present in the header and in every written row, for both the
main.rs writer and the utils.rs writer. -/
theorem C7_amended (indicators : List (String × String × String))
    (pyFiles rsFiles : List (String × String)) :
    indicatorsCsvLines indicators =
      "filename,indicator_name,extension" ::
        indicators.map (fun r => r.1 ++ "," ++ r.2.1 ++ "," ++ r.2.2)
  ∧ (save_indicators_csv pyFiles rsFiles).head? =
      some ["filename", "indicator_name", "extension"]
  ∧ ∀ row ∈ (save_indicators_csv pyFiles rsFiles).tail, row.length = 3 := by
  refine ⟨rfl, rfl, ?_⟩
  intro row hrow
  simp only [save_indicators_csv, List.tail_cons] at hrow
  obtain ⟨c, _, rfl⟩ := List.mem_map.mp hrow
  rfl

/-- C7 witness: a concrete indicator row is written with exactly the
three columns. -/
theorem C7_amended_witness :
    indicatorsCsvLines [("a.py", "Foo", "python")] =
      ["filename,indicator_name,extension", "a.py,Foo,python"] := by
  have h := (C7_amended [("a.py", "Foo", "python")] [] []).1
  rw [h]
  decide

/-- C8 counterexample: a completion-service failure during report
generation does not produce fallback rows — it aborts the run: the
report phase propagates the error (`?` on the single
`rag_agent.prompt` call) and returns no report at all. -/
theorem C8_counterexample :
    reportPhase (Except.error "request failed") = Except.error "request failed"
  ∧ (reportPhase (Except.error "request failed")).isOk = false := by
  exact ⟨rfl, rfl⟩

/-- C8 amended: report generation is a single completion call for the
whole table; on failure the error propagates and the run aborts with no
report rows (no per-unit fallback rows exist), and on success the
report file contains exactly the returned table, independent of the
number of tracked units. -/
theorem C8_amended (e table : String) :
    reportPhase (Except.error e) = Except.error e
  ∧ reportPhase (Except.ok table) = Except.ok [table] :=
  ⟨rfl, rfl⟩

end NautilusRig
